import Mathlib

/-
Shallow embedding of the gradient-resolution core of `bevy-ui-gradients`
(`src/lib.rs`), with arithmetic over exact rationals (and reals for the
conic-gradient angular example).  Definitions follow the Rust source; the
stop normalizer and the leaf length resolver live outside the provided
sources and are modelled from the specification, as marked.
-/

namespace BevyUiGradients

/-- 2D vector with componentwise arithmetic, embedding `bevy::math::Vec2`. -/
structure Vec2 where
  x : ℚ
  y : ℚ
  deriving Repr, DecidableEq

def Vec2.splat (v : ℚ) : Vec2 := ⟨v, v⟩

def Vec2.map (v : Vec2) (f : ℚ → ℚ) : Vec2 := ⟨f v.x, f v.y⟩

instance : Add Vec2 := ⟨fun a b => ⟨a.x + b.x, a.y + b.y⟩⟩

instance : Mul Vec2 := ⟨fun a b => ⟨a.x * b.x, a.y * b.y⟩⟩

instance : HMul ℚ Vec2 Vec2 := ⟨fun c v => ⟨c * v.x, c * v.y⟩⟩

/-- Modelled from the spec: the responsive length type (`bevy::ui::Val`) is a
dependency whose declaration is not under `src/`; per the spec's data model it
is a variant over absolute pixels, percentage of a reference size,
unresolved/automatic, and other unit kinds (the viewport units) that do not
participate in gradient math. -/
inductive Val where
  | Auto
  | Px (value : ℚ)
  | Percent (percentage : ℚ)
  | Vw (value : ℚ)
  | Vh (value : ℚ)
  | VMin (value : ℚ)
  | VMax (value : ℚ)
  deriving Repr, DecidableEq

def Val.ZERO : Val := .Px 0

/-- Modelled from the spec: `Val::resolve` is not under `src/`.  Per the spec,
absolute pixel values are returned as-is, percentage values resolve to
`percentage * reference_size`, and unresolved/automatic values and unit kinds
not meaningful in this context yield `None`. -/
def Val.resolve (self : Val) (reference_size : ℚ) (target_size : Vec2) : Option ℚ :=
  match self with
  | .Px value => some value
  | .Percent percentage => some (percentage * reference_size)
  | _ => none

/-- `scale_val` from `src/lib.rs`: pre-scales absolute pixel values by the
scale factor and leaves every other variant unchanged. -/
def scale_val (val : Val) (scale_factor : ℚ) : Val :=
  match val with
  | .Px px => .Px (px * scale_factor)
  | _ => val

/-- `Position` from `src/lib.rs`: responsive position relative to a UI node. -/
structure Position where
  anchor : Vec2
  x : Val
  y : Val
  deriving Repr, DecidableEq

/-- `Position::resolve` from `src/lib.rs`: resolves the `Position` into
physical coordinates. -/
def Position.resolve (self : Position) (scale_factor : ℚ)
    (physical_size physical_target_size : Vec2) : Vec2 :=
  let d := self.anchor.map (fun p => if 0 < p then -1 else 1)
  physical_size * self.anchor
    + d * Vec2.mk
        (((scale_val self.x scale_factor).resolve physical_size.x
            physical_target_size).getD 0)
        (((scale_val self.y scale_factor).resolve physical_size.y
            physical_target_size).getD 0)

/-- Color embedded as four exact channel values (`bevy::color::Color` is
opaque to the gradient math; only equality of colors matters here). -/
structure Color where
  red : ℚ
  green : ℚ
  blue : ℚ
  alpha : ℚ
  deriving Repr, DecidableEq

/-- `ColorStop` from `src/lib.rs`: a color stop for a gradient. -/
structure ColorStop where
  color : Color
  point : Val
  hint : ℚ
  deriving Repr, DecidableEq

/-- `AngularColorStop` from `src/lib.rs`: an angular color stop for a conic
gradient; `angle = none` marks an automatic stop. -/
structure AngularColorStop where
  color : Color
  angle : Option ℚ
  hint : ℚ
  deriving Repr, DecidableEq

/-- `LinearGradient` from `src/lib.rs`. -/
structure LinearGradient where
  angle : ℚ
  stops : List ColorStop
  deriving Repr, DecidableEq

/-- `RadialGradientShape` from `src/lib.rs`: the end shape of a radial
gradient. -/
inductive RadialGradientShape where
  | ClosestSide
  | FarthestSide
  | ClosestCorner
  | FarthestCorner
  | Circle (radius : Val)
  | Ellipse (x y : Val)
  deriving Repr, DecidableEq

/-- `RadialGradient` from `src/lib.rs`. -/
structure RadialGradient where
  position : Position
  shape : RadialGradientShape
  stops : List ColorStop
  deriving Repr, DecidableEq

/-- `ConicGradient` from `src/lib.rs`. -/
structure ConicGradient where
  position : Position
  stops : List AngularColorStop
  deriving Repr, DecidableEq

/-- `Gradient` from `src/lib.rs`: sum of the three gradient variants. -/
inductive Gradient where
  | Linear (gradient : LinearGradient)
  | Radial (gradient : RadialGradient)
  | Conic (gradient : ConicGradient)
  deriving Repr, DecidableEq

/-- `Gradient::is_empty` from `src/lib.rs`: true if the gradient has no
stops. -/
def Gradient.is_empty (self : Gradient) : Bool :=
  match self with
  | .Linear gradient => gradient.stops.isEmpty
  | .Radial gradient => gradient.stops.isEmpty
  | .Conic gradient => gradient.stops.isEmpty

/-- `Gradient::get_single` from `src/lib.rs`: if the gradient has only a
single color stop, returns its color. -/
def Gradient.get_single (self : Gradient) : Option Color :=
  match self with
  | .Linear gradient =>
      gradient.stops.head?.bind fun stop =>
        if gradient.stops.length = 1 then some stop.color else none
  | .Radial gradient =>
      gradient.stops.head?.bind fun stop =>
        if gradient.stops.length = 1 then some stop.color else none
  | .Conic gradient =>
      gradient.stops.head?.bind fun stop =>
        if gradient.stops.length = 1 then some stop.color else none

/-- Length of the active variant's stop list (spec-side accessor used to state
the `is_empty` / `get_single` claims). -/
def Gradient.stopsLen (self : Gradient) : Nat :=
  match self with
  | .Linear gradient => gradient.stops.length
  | .Radial gradient => gradient.stops.length
  | .Conic gradient => gradient.stops.length

/-- Color of the first stop of the active variant's stop list, if any
(spec-side accessor used to state the `get_single` claim). -/
def Gradient.firstColor (self : Gradient) : Option Color :=
  match self with
  | .Linear gradient => gradient.stops.head?.map ColorStop.color
  | .Radial gradient => gradient.stops.head?.map ColorStop.color
  | .Conic gradient => gradient.stops.head?.map AngularColorStop.color

/-- `close_side` from `src/lib.rs`. -/
def close_side (p h : ℚ) : ℚ :=
  min (abs (-h - p)) (abs (h - p))

/-- `far_side` from `src/lib.rs`. -/
def far_side (p h : ℚ) : ℚ :=
  max (abs (-h - p)) (abs (h - p))

/-- `close_side2` from `src/lib.rs`. -/
def close_side2 (p h : Vec2) : ℚ :=
  min (close_side p.x h.x) (close_side p.y h.y)

/-- `far_side2` from `src/lib.rs`. -/
def far_side2 (p h : Vec2) : ℚ :=
  max (far_side p.x h.x) (far_side p.y h.y)

/-- `RadialGradientShape::resolve` from `src/lib.rs`: resolves the physical
dimensions of the end shape of the radial gradient. -/
def RadialGradientShape.resolve (self : RadialGradientShape) (position : Vec2)
    (scale_factor : ℚ) (physical_size physical_target_size : Vec2) : Vec2 :=
  let half_size : Vec2 := (0.5 : ℚ) * physical_size
  match self with
  | .ClosestSide => Vec2.splat (close_side2 position half_size)
  | .FarthestSide => Vec2.splat (far_side2 position half_size)
  | .ClosestCorner =>
      Vec2.mk (close_side position.x half_size.x) (close_side position.y half_size.y)
  | .FarthestCorner =>
      Vec2.mk (far_side position.x half_size.x) (far_side position.y half_size.y)
  | .Circle radius =>
      Vec2.splat (((scale_val radius scale_factor).resolve physical_size.x
        physical_target_size).getD 0)
  | .Ellipse x y =>
      Vec2.mk
        (((scale_val x scale_factor).resolve physical_size.x
            physical_target_size).getD 0)
        (((scale_val y scale_factor).resolve physical_size.y
            physical_target_size).getD 0)

section StopNormalizer

variable {α : Type} [LinearOrderedField α]

/-- Modelled from the spec: the Stop Normalizer lives in the crate's `render`
module, which is declared by `mod render;` in `src/lib.rs` but is not among
the provided sources.  Rule 1: if the first stop is automatic, assign it
position 0. -/
def setFirst (stops : List (Option α)) : List (Option α) :=
  match stops with
  | [] => []
  | none :: rest => some 0 :: rest
  | s :: rest => s :: rest

/-- Modelled from the spec: parse a stop list into explicit stops, each paired
with the number of automatic stops immediately preceding it, together with the
count of trailing automatic stops after the last explicit stop. -/
def parseRuns : List (Option α) → List (Nat × α) × Nat
  | [] => ([], 0)
  | some p :: rest =>
      let pr := parseRuns rest
      ((0, p) :: pr.1, pr.2)
  | none :: rest =>
      let pr := parseRuns rest
      match pr.1 with
      | [] => ([], pr.2 + 1)
      | (n, p) :: rs => ((n + 1, p) :: rs, pr.2)

/-- Modelled from the spec: positions of a run of `n` automatic stops filled
by stepping `step` from `start`, i.e. `start + step, start + 2*step, ...`. -/
def fillRun (start step : α) : Nat → List α
  | 0 => []
  | n + 1 => (start + step) :: fillRun (start + step) step n

/-- Modelled from the spec: rules 2 and 3 of the Stop Normalizer.  Each run of
`n` automatic stops followed by an explicit stop `p` is spread evenly between
the previous explicit position `prev` and `p` with step `(p - prev)/(n+1)`;
the trailing run of `t` automatic stops is spread evenly between the last
explicit position and the gradient's total `extent` (so an automatic last stop
receives exactly `extent`). -/
def fillRuns (prev extent : α) : List (Nat × α) → Nat → List α
  | [], t => fillRun prev ((extent - prev) / (t : α)) t
  | (n, p) :: rest, t =>
      fillRun prev ((p - prev) / ((n : α) + 1)) n ++ p :: fillRuns p extent rest t

/-- Modelled from the spec: assignment of explicit positions to every stop
(rules 2 and 3), before the monotonicity fix-up. -/
def fillStops (prev extent : α) (stops : List (Option α)) : List α :=
  fillRuns prev extent (parseRuns stops).1 (parseRuns stops).2

/-- Modelled from the spec: rule 4 applied to every stop after the first, with
`prev` the previous stop's resolved position; a stop whose computed position
is below `prev` is raised to `prev`. -/
def fixupGo (prev : α) : List α → List α
  | [] => []
  | x :: xs => max prev x :: fixupGo (max prev x) xs

/-- Modelled from the spec: rule 4, monotonic non-decrease enforcement left to
right; the first stop is kept as computed. -/
def fixup : List α → List α
  | [] => []
  | x :: xs => x :: fixupGo x xs

/-- Modelled from the spec: the full Stop Normalizer over the positions of a
stop list (`none` = automatic stop), for a gradient of total `extent`. -/
def normalizeStops (stops : List (Option α)) (extent : α) : List α :=
  fixup (fillStops 0 extent (setFirst stops))

end StopNormalizer

theorem Vec2.add_x (a b : Vec2) : (a + b).x = a.x + b.x := rfl

theorem Vec2.add_y (a b : Vec2) : (a + b).y = a.y + b.y := rfl

theorem Vec2.mul_x (a b : Vec2) : (a * b).x = a.x * b.x := rfl

theorem Vec2.mul_y (a b : Vec2) : (a * b).y = a.y * b.y := rfl

theorem Vec2.smul_x (c : ℚ) (v : Vec2) : (c * v).x = c * v.x := rfl

theorem Vec2.smul_y (c : ℚ) (v : Vec2) : (c * v).y = c * v.y := rfl

/-- C1: `Position::resolve` returns, per axis, `physical_size_axis * anchor_axis
+ d * offset_axis`, where `d = -1` if the anchor component is positive and
`d = 1` otherwise (including zero), and the offset is the responsive length of
that axis resolved with the scale factor against that axis's physical size,
an unresolvable length contributing 0. -/
theorem position_resolve_axis_formula (pos : Position) (scale_factor : ℚ)
    (physical_size physical_target_size : Vec2) :
    (pos.resolve scale_factor physical_size physical_target_size).x
      = physical_size.x * pos.anchor.x
        + (if 0 < pos.anchor.x then (-1 : ℚ) else 1)
          * ((scale_val pos.x scale_factor).resolve physical_size.x
              physical_target_size).getD 0
  ∧ (pos.resolve scale_factor physical_size physical_target_size).y
      = physical_size.y * pos.anchor.y
        + (if 0 < pos.anchor.y then (-1 : ℚ) else 1)
          * ((scale_val pos.y scale_factor).resolve physical_size.y
              physical_target_size).getD 0 :=
  ⟨rfl, rfl⟩

/-- C5: after pre-scaling, an absolute pixel value resolves to the pixel value
times the scale factor, independently of the reference and target sizes; a
percentage value resolves to `percentage * reference_size`; automatic values
and unit kinds not meaningful in this context resolve to `none`. -/
theorem responsive_length_resolution (scale_factor px pct v ref1 ref2 : ℚ)
    (tgt1 tgt2 : Vec2) :
    ((scale_val (Val.Px px) scale_factor).resolve ref1 tgt1
        = some (px * scale_factor))
  ∧ ((scale_val (Val.Px px) scale_factor).resolve ref1 tgt1
        = (scale_val (Val.Px px) scale_factor).resolve ref2 tgt2)
  ∧ ((scale_val (Val.Percent pct) scale_factor).resolve ref1 tgt1
        = some (pct * ref1))
  ∧ ((scale_val Val.Auto scale_factor).resolve ref1 tgt1 = none)
  ∧ ((scale_val (Val.Vw v) scale_factor).resolve ref1 tgt1 = none)
  ∧ ((scale_val (Val.Vh v) scale_factor).resolve ref1 tgt1 = none)
  ∧ ((scale_val (Val.VMin v) scale_factor).resolve ref1 tgt1 = none)
  ∧ ((scale_val (Val.VMax v) scale_factor).resolve ref1 tgt1 = none) :=
  ⟨rfl, rfl, rfl, rfl, rfl, rfl, rfl, rfl⟩

/-- C9: the resolvers are total Lean functions; every unresolvable length
contributes 0, so a position with automatic offsets resolves to the bare anchor
contribution and explicit `Circle`/`Ellipse` radii given as automatic values
resolve to half-extents of 0. -/
theorem resolvers_total_auto_zero (anchor p physical_size physical_target_size : Vec2)
    (scale_factor : ℚ) :
    Position.resolve ⟨anchor, .Auto, .Auto⟩ scale_factor physical_size
        physical_target_size
      = ⟨physical_size.x * anchor.x, physical_size.y * anchor.y⟩
  ∧ RadialGradientShape.resolve (.Circle .Auto) p scale_factor physical_size
        physical_target_size = ⟨0, 0⟩
  ∧ RadialGradientShape.resolve (.Ellipse .Auto .Auto) p scale_factor
        physical_size physical_target_size = ⟨0, 0⟩ := by
  refine ⟨?_, rfl, rfl⟩
  show Vec2.mk (physical_size.x * anchor.x + _ * (0:ℚ)) (physical_size.y * anchor.y + _ * (0:ℚ)) = _
  rw [mul_zero, mul_zero, add_zero, add_zero]

/-- C10: an explicit `Circle` radius given as a percentage is resolved against
the horizontal physical size only, and that single value is used for both
half-extents; the result does not depend on the element's height. -/
theorem circle_percent_uses_width (pct scale_factor w h1 h2 : ℚ) (p tgt : Vec2) :
    RadialGradientShape.resolve (.Circle (.Percent pct)) p scale_factor
        ⟨w, h1⟩ tgt = ⟨pct * w, pct * w⟩
  ∧ RadialGradientShape.resolve (.Circle (.Percent pct)) p scale_factor
        ⟨w, h1⟩ tgt
      = RadialGradientShape.resolve (.Circle (.Percent pct)) p scale_factor
          ⟨w, h2⟩ tgt :=
  ⟨rfl, rfl⟩

/-- C4: with half-extents `h = s/2`, `RadialGradientShape::resolve` computes
`ClosestSide` as a circle of radius `min` over both axes of
`min(|-h - p|, |h - p|)`, `FarthestSide` with `max` in place of `min`, and the
corner shapes as ellipses applying the per-axis `min` (resp. `max`) formula
independently on each axis. -/
theorem radial_shape_formulas (p physical_size physical_target_size : Vec2)
    (scale_factor : ℚ) :
    RadialGradientShape.resolve .ClosestSide p scale_factor physical_size
        physical_target_size
      = Vec2.splat (min
          (min (abs (-(physical_size.x / 2) - p.x)) (abs (physical_size.x / 2 - p.x)))
          (min (abs (-(physical_size.y / 2) - p.y)) (abs (physical_size.y / 2 - p.y))))
  ∧ RadialGradientShape.resolve .FarthestSide p scale_factor physical_size
        physical_target_size
      = Vec2.splat (max
          (max (abs (-(physical_size.x / 2) - p.x)) (abs (physical_size.x / 2 - p.x)))
          (max (abs (-(physical_size.y / 2) - p.y)) (abs (physical_size.y / 2 - p.y))))
  ∧ RadialGradientShape.resolve .ClosestCorner p scale_factor physical_size
        physical_target_size
      = Vec2.mk
          (min (abs (-(physical_size.x / 2) - p.x)) (abs (physical_size.x / 2 - p.x)))
          (min (abs (-(physical_size.y / 2) - p.y)) (abs (physical_size.y / 2 - p.y)))
  ∧ RadialGradientShape.resolve .FarthestCorner p scale_factor physical_size
        physical_target_size
      = Vec2.mk
          (max (abs (-(physical_size.x / 2) - p.x)) (abs (physical_size.x / 2 - p.x)))
          (max (abs (-(physical_size.y / 2) - p.y)) (abs (physical_size.y / 2 - p.y))) := by
  have hx : (0.5 : ℚ) * physical_size.x = physical_size.x / 2 := by ring
  have hy : (0.5 : ℚ) * physical_size.y = physical_size.y / 2 := by ring
  refine ⟨?_, ?_, ?_, ?_⟩ <;>
    simp only [RadialGradientShape.resolve, close_side2, far_side2, close_side,
      far_side, Vec2.smul_x, Vec2.smul_y, hx, hy]

/-- C7: on each axis separately, for the same center and size, the resolved
half-extents satisfy `ClosestSide ≤ ClosestCorner ≤ FarthestCorner ≤
FarthestSide`. -/
theorem radial_shape_monotone_chain (p physical_size physical_target_size : Vec2)
    (scale_factor : ℚ) :
    ((RadialGradientShape.resolve .ClosestSide p scale_factor physical_size
          physical_target_size).x
        ≤ (RadialGradientShape.resolve .ClosestCorner p scale_factor physical_size
            physical_target_size).x
      ∧ (RadialGradientShape.resolve .ClosestCorner p scale_factor physical_size
            physical_target_size).x
          ≤ (RadialGradientShape.resolve .FarthestCorner p scale_factor physical_size
              physical_target_size).x
      ∧ (RadialGradientShape.resolve .FarthestCorner p scale_factor physical_size
            physical_target_size).x
          ≤ (RadialGradientShape.resolve .FarthestSide p scale_factor physical_size
              physical_target_size).x)
  ∧ ((RadialGradientShape.resolve .ClosestSide p scale_factor physical_size
          physical_target_size).y
        ≤ (RadialGradientShape.resolve .ClosestCorner p scale_factor physical_size
            physical_target_size).y
      ∧ (RadialGradientShape.resolve .ClosestCorner p scale_factor physical_size
            physical_target_size).y
          ≤ (RadialGradientShape.resolve .FarthestCorner p scale_factor physical_size
              physical_target_size).y
      ∧ (RadialGradientShape.resolve .FarthestCorner p scale_factor physical_size
            physical_target_size).y
          ≤ (RadialGradientShape.resolve .FarthestSide p scale_factor physical_size
              physical_target_size).y) := by
  refine ⟨⟨?_, ?_, ?_⟩, ⟨?_, ?_, ?_⟩⟩
  · exact min_le_left _ _
  · exact le_trans (min_le_left _ _) (le_max_left _ _)
  · exact le_max_left _ _
  · exact min_le_right _ _
  · exact le_trans (min_le_left _ _) (le_max_left _ _)
  · exact le_max_right _ _

/-- C8: `Gradient::is_empty` is true exactly when the active variant's stop
list has length 0, and `Gradient::get_single` returns `some c` exactly when
the stop list has length 1 and `c` is the sole stop's color, returning `none`
otherwise. -/
theorem gradient_empty_single (g : Gradient) :
    (g.is_empty = true ↔ g.stopsLen = 0)
  ∧ (∀ c : Color, g.get_single = some c ↔ g.stopsLen = 1 ∧ g.firstColor = some c)
  ∧ (g.get_single = none ↔ g.stopsLen ≠ 1) := by
  rcases g with ⟨angle, stops⟩ | ⟨pos, shape, stops⟩ | ⟨pos, stops⟩ <;>
    rcases stops with _ | ⟨s, _ | ⟨s2, rest⟩⟩ <;>
      simp [Gradient.is_empty, Gradient.get_single, Gradient.stopsLen,
        Gradient.firstColor]

/-- C6: with a positive scale factor, a positive pixel offset on an axis with
anchor component `0.5` yields a coordinate strictly less than the anchor-only
coordinate (resolved with zero offsets), and with anchor component `-0.5` a
coordinate strictly greater than the anchor-only coordinate. -/
theorem position_offset_pulls_inward (physical_size physical_target_size : Vec2)
    (ay o scale_factor : ℚ) (yv : Val) (ho : 0 < o) (hs : 0 < scale_factor) :
    (Position.resolve ⟨⟨0.5, ay⟩, .Px o, yv⟩ scale_factor physical_size
          physical_target_size).x
        < (Position.resolve ⟨⟨0.5, ay⟩, Val.ZERO, yv⟩ scale_factor physical_size
            physical_target_size).x
  ∧ (Position.resolve ⟨⟨-0.5, ay⟩, Val.ZERO, yv⟩ scale_factor physical_size
          physical_target_size).x
        < (Position.resolve ⟨⟨-0.5, ay⟩, .Px o, yv⟩ scale_factor physical_size
            physical_target_size).x := by
  have hpos : 0 < o * scale_factor := mul_pos ho hs
  constructor
  · show physical_size.x * (0.5 : ℚ) + (if 0 < (0.5 : ℚ) then (-1 : ℚ) else 1) * (o * scale_factor)
      < physical_size.x * (0.5 : ℚ) + (if 0 < (0.5 : ℚ) then (-1 : ℚ) else 1) * ((0 : ℚ) * scale_factor)
    norm_num
    linarith
  · show physical_size.x * (-0.5 : ℚ) + (if 0 < (-0.5 : ℚ) then (-1 : ℚ) else 1) * ((0 : ℚ) * scale_factor)
      < physical_size.x * (-0.5 : ℚ) + (if 0 < (-0.5 : ℚ) then (-1 : ℚ) else 1) * (o * scale_factor)
    norm_num
    linarith

theorem position_offset_pulls_inward_witness :
    (0 : ℚ) < 1 ∧ (0 : ℚ) < 2
  ∧ ((Position.resolve ⟨⟨0.5, 0⟩, .Px 1, .Auto⟩ 2 ⟨4, 4⟩ ⟨8, 8⟩).x
        < (Position.resolve ⟨⟨0.5, 0⟩, Val.ZERO, .Auto⟩ 2 ⟨4, 4⟩ ⟨8, 8⟩).x
      ∧ (Position.resolve ⟨⟨-0.5, 0⟩, Val.ZERO, .Auto⟩ 2 ⟨4, 4⟩ ⟨8, 8⟩).x
          < (Position.resolve ⟨⟨-0.5, 0⟩, .Px 1, .Auto⟩ 2 ⟨4, 4⟩ ⟨8, 8⟩).x) :=
  ⟨by norm_num, by norm_num,
    position_offset_pulls_inward ⟨4, 4⟩ ⟨8, 8⟩ 0 1 2 .Auto (by norm_num) (by norm_num)⟩

theorem max_ite_lt (prev x : ℚ) : max prev x = if x < prev then prev else x := by
  split
  · exact max_eq_left (le_of_lt (by assumption))
  · exact max_eq_right (not_lt.mp (by assumption))

theorem chain_le_fixupGo (l : List ℚ) :
    ∀ prev : ℚ, List.Chain' (· ≤ ·) (prev :: fixupGo prev l) := by
  induction l with
  | nil => intro prev; simp [fixupGo]
  | cons x xs ih =>
    intro prev
    rw [fixupGo, List.chain'_cons]
    exact ⟨le_max_left _ _, ih (max prev x)⟩

/-- C2: the normalized output of the Stop Normalizer is monotonic
non-decreasing, every adjacent pair satisfying `position[i] <= position[i+1]`,
and a stop whose computed position falls below its predecessor's resolved
position is raised to equal that predecessor's position. -/
theorem stop_normalizer_monotonic :
    (∀ (stops : List (Option ℚ)) (extent : ℚ),
        List.Chain' (· ≤ ·) (normalizeStops stops extent))
  ∧ (∀ (prev x : ℚ) (xs : List ℚ),
        fixupGo prev (x :: xs)
          = (if x < prev then prev else x)
              :: fixupGo (if x < prev then prev else x) xs) := by
  constructor
  · intro stops extent
    rw [normalizeStops]
    cases h : fillStops (0 : ℚ) extent (setFirst stops) with
    | nil => simp [fixup]
    | cons a l => rw [fixup]; exact chain_le_fixupGo l a
  · intro prev x xs
    rw [fixupGo, max_ite_lt]

theorem fillRun_length (step : ℚ) :
    ∀ (n : Nat) (start : ℚ), (fillRun start step n).length = n := by
  intro n
  induction n with
  | zero => intro start; rfl
  | succ m ih => intro start; rw [fillRun]; simp [ih]

theorem fillRun_get (step : ℚ) :
    ∀ (n k : Nat) (start : ℚ), k < n →
      (fillRun start step n).get? k = some (start + ((k : ℚ) + 1) * step) := by
  intro n
  induction n with
  | zero => intro k start h; exact absurd h (Nat.not_lt_zero k)
  | succ m ih =>
    intro k start h
    cases k with
    | zero =>
      rw [fillRun]
      simp only [List.get?_cons_zero, Option.some.injEq, Nat.cast_zero]
      ring
    | succ j =>
      rw [fillRun, List.get?_cons_succ, ih j (start + step) (Nat.lt_of_succ_lt_succ h)]
      simp only [Option.some.injEq]
      push_cast
      ring

theorem fillRun_getLast (step : ℚ) :
    ∀ (n : Nat) (start : ℚ),
      (fillRun start step (n + 1)).getLast? = some (start + ((n : ℚ) + 1) * step) := by
  intro n
  induction n with
  | zero =>
    intro start
    rw [fillRun, fillRun]
    simp only [List.getLast?_singleton, Option.some.injEq, Nat.cast_zero]
    ring
  | succ m ih =>
    intro start
    have h2 := ih (start + step)
    rw [fillRun] at h2
    rw [fillRun, fillRun, List.getLast?_cons_cons, h2]
    simp only [Option.some.injEq]
    push_cast
    ring

theorem fillRuns_getLast (extent : ℚ) (t : Nat) :
    ∀ (runs : List (Nat × ℚ)) (prev : ℚ),
      (fillRuns prev extent runs (t + 1)).getLast? = some extent := by
  intro runs
  induction runs with
  | nil =>
    intro prev
    rw [fillRuns, fillRun_getLast]
    have hne : ((t : ℚ) + 1) ≠ 0 := by positivity
    simp only [Option.some.injEq]
    push_cast
    field_simp
  | cons r rs ih =>
    intro prev
    obtain ⟨n, pp⟩ := r
    rw [fillRuns]
    have h2 := ih pp
    rw [List.getLast?_append_cons]
    cases hB : fillRuns pp extent rs (t + 1) with
    | nil => rw [hB] at h2; simp at h2
    | cons b bs =>
      rw [hB] at h2
      rw [List.getLast?_cons_cons]
      exact h2

theorem parseRuns_replicate_cons (p : ℚ) (rest : List (Option ℚ)) :
    ∀ n : Nat, parseRuns (List.replicate n none ++ some p :: rest)
      = ((n, p) :: (parseRuns rest).1, (parseRuns rest).2) := by
  intro n
  induction n with
  | zero => rfl
  | succ m ih => simp [List.replicate_succ, parseRuns, ih]

theorem parseRuns_append_none :
    ∀ l : List (Option ℚ), parseRuns (l ++ [none])
      = ((parseRuns l).1, (parseRuns l).2 + 1) := by
  intro l
  induction l with
  | nil => rfl
  | cons o rest ih =>
    cases o with
    | some p => simp [parseRuns, ih]
    | none =>
      rw [List.cons_append, parseRuns, parseRuns, ih]
      cases h : (parseRuns rest).1 with
      | nil => simp [h]
      | cons r rs => simp [h]

/-- C3: the `k`-th of a run of `n` automatic stops strictly between explicit
positions `p_lo` and `p_hi` is assigned `p_lo + (p_hi - p_lo)*(k+1)/(n+1)`; an
automatic first stop is assigned 0 and an automatic last stop the gradient's
total extent; the conic stop list with angles `[0, auto, auto]` and total
extent `2*pi` normalizes to positions `[0, pi, 2*pi]`. -/
theorem stop_normalizer_even_spacing :
    (∀ (prev p_lo p_hi extent : ℚ) (rest : List (Option ℚ)) (n k : Nat),
        k < n →
        (fillStops prev extent
            (some p_lo :: (List.replicate n none ++ some p_hi :: rest))).get? (k + 1)
          = some (p_lo + (p_hi - p_lo) * ((k : ℚ) + 1) / ((n : ℚ) + 1)))
  ∧ (∀ (rest : List (Option ℚ)) (extent : ℚ),
        (normalizeStops (none :: rest) extent).head? = some 0)
  ∧ (∀ (stops : List (Option ℚ)) (prev extent : ℚ),
        (fillStops prev extent (stops ++ [none])).getLast? = some extent)
  ∧ normalizeStops ([some 0, none, none] : List (Option ℝ)) (2 * Real.pi)
      = [0, Real.pi, 2 * Real.pi] := by
  refine ⟨?_, ?_, ?_, ?_⟩
  · intro prev p_lo p_hi extent rest n k hk
    rw [fillStops,
      show parseRuns (some p_lo :: (List.replicate n none ++ some p_hi :: rest))
        = ((0, p_lo) :: (parseRuns (List.replicate n none ++ some p_hi :: rest)).1,
            (parseRuns (List.replicate n none ++ some p_hi :: rest)).2) from rfl,
      parseRuns_replicate_cons, fillRuns, fillRuns]
    simp only [fillRun, List.nil_append]
    rw [List.get?_cons_succ, List.get?_append (by rw [fillRun_length]; exact hk),
      fillRun_get _ n k p_lo hk]
    simp only [Option.some.injEq]
    ring
  · intro rest extent
    rw [normalizeStops, show setFirst (none :: rest) = some 0 :: rest from rfl,
      fillStops,
      show parseRuns (some (0 : ℚ) :: rest)
        = ((0, (0 : ℚ)) :: (parseRuns rest).1, (parseRuns rest).2) from rfl,
      fillRuns]
    simp only [fillRun, List.nil_append]
    rw [fixup]
    rfl
  · intro stops prev extent
    rw [fillStops, parseRuns_append_none]
    exact fillRuns_getLast extent (parseRuns stops).2 (parseRuns stops).1 prev
  · have hfill : fillStops (0 : ℝ) (2 * Real.pi) [some 0, none, none]
        = [0, Real.pi, 2 * Real.pi] := by
      rw [fillStops]
      simp only [show (parseRuns [some (0 : ℝ), none, none])
        = ([(0, (0 : ℝ))], 2) from rfl, fillRuns, fillRuns, fillRun]
      push_cast
      norm_num
      ring
    rw [normalizeStops,
      show setFirst ([some 0, none, none] : List (Option ℝ)) = [some 0, none, none]
        from rfl,
      hfill, fixup, fixupGo, fixupGo, fixupGo]
    rw [max_eq_right Real.pi_nonneg,
      max_eq_right (by nlinarith [Real.pi_pos] : Real.pi ≤ 2 * Real.pi)]

theorem stop_normalizer_even_spacing_witness :
    (0 : Nat) < 1
  ∧ (fillStops (0 : ℚ) 10
        (some 2 :: (List.replicate 1 none ++ some 4 :: []))).get? (0 + 1)
      = some (2 + (4 - 2) * (((0 : Nat) : ℚ) + 1) / (((1 : Nat) : ℚ) + 1)) :=
  ⟨Nat.zero_lt_one, stop_normalizer_even_spacing.1 0 2 4 10 [] 1 0 Nat.zero_lt_one⟩

end BevyUiGradients
